import Mathlib

/-!
# Verification of agepad (github.com/andreweick/agepad)

A shallow embedding in Lean 4 of the core logic of agepad, a TUI editor for
age-encrypted files, together with proofs about the embedded code.

Embedded components (each definition carries a pointer to its Go source):

* the KEY=VALUE environment merge of the `run` subcommand
  (`cmd/agepad/main.go`, `runEnvExec`);
* the `run` subcommand argument parsing and the process exit-code discipline
  (`cmd/agepad/main.go`, `runEnvExec` and `main`);
* the atomic encrypt-and-write routine over a model file system
  (`age` package, `AtomicEncryptWrite`);
* the batch recipient-rotation loop (`cmd/agepad/main.go`, `runRotate`);
* the encrypt-to-memory / decrypt-with-armor-autodetect composition
  (`age` package, `EncryptToMemory` and `DecryptToMemory`), over an abstract
  external encryption primitive (the filippo.io/age library is external);
* the editor state machine (`tui/tui.go`, `Model.Update`).

Go strings are modelled as `List Char` where character-level operations
matter (the env merge), and as Lean `String` where the code only compares
whole buffers (the editor state machine).  `unicode.IsSpace` is modelled on
its ASCII subset, which covers every character the embedded code paths
inspect.
-/

namespace Agepad

/-! ## Go string helpers (strings / bufio packages, ASCII fragment) -/

/-- ASCII fragment of Go `unicode.IsSpace` (space, tab, newline, vertical
tab, form feed, carriage return). -/
def isSpaceChar (c : Char) : Bool :=
  c = ' ' || c = '\t' || c = '\n' || c = '\x0b' || c = '\x0c' || c = '\r'

/-- Go `strings.TrimSpace`: drop whitespace from both ends. -/
def trimSpace (s : List Char) : List Char :=
  ((s.dropWhile isSpaceChar).reverse.dropWhile isSpaceChar).reverse

/-- Split a character list at every occurrence of `c`; the separators are
consumed.  `splitOnChar ',' "a,b"` is `["a", "b"]`; the result is never
empty. -/
def splitOnChar (c : Char) : List Char → List (List Char)
  | [] => [[]]
  | x :: xs =>
    match splitOnChar c xs with
    | [] => [[]]
    | h :: t => if x = c then [] :: h :: t else (x :: h) :: t

/-- `dropCR` from Go `bufio.ScanLines`: strip one trailing carriage
return. -/
def dropCR (l : List Char) : List Char :=
  if l.getLast? = some '\r' then l.dropLast else l

/-- Token stream produced by Go's `bufio.Scanner` with `ScanLines`: split on
newlines, drop the line terminators, strip one trailing `\r` per line;
empty input yields no tokens, and a trailing newline does not yield a final
empty token. -/
def scanLines (s : List Char) : List (List Char) :=
  if s = [] then []
  else
    let parts := splitOnChar '\n' s
    let parts := if s.getLast? = some '\n' then parts.dropLast else parts
    parts.map dropCR

/-! ## Environment merge (`cmd/agepad/main.go`, `runEnvExec`, lines 263-286)

The merged environment is an association list with Go-map lookup/update
semantics: `setEnv` overwrites the binding of an existing key in place and
appends a fresh key. -/

/-- Association-list model of the Go `map[string]string` `envMap`. -/
abbrev EnvMap := List (List Char × List Char)

/-- Go map update `envMap[key] = val`. -/
def setEnv : EnvMap → List Char → List Char → EnvMap
  | [], k, v => [(k, v)]
  | (k₀, v₀) :: t, k, v =>
    if k₀ = k then (k₀, v) :: t else (k₀, v₀) :: setEnv t k v

/-- Go map lookup `envMap[key]`. -/
def lookupEnv : EnvMap → List Char → Option (List Char)
  | [], _ => none
  | (k₀, v₀) :: t, k => if k₀ = k then some v₀ else lookupEnv t k

/-- Go `strings.Contains(s, string(c))` for a one-character needle. -/
def elemChar (c : Char) : List Char → Bool
  | [] => false
  | x :: xs => x == c || elemChar c xs

/-- One iteration of the `os.Environ()` seeding loop of `runEnvExec`
(main.go lines 265-270): split the entry on the first `=` and record it when
the split produced two parts (i.e. the entry contains a `=`). -/
def seedEntry (m : EnvMap) (kv : List Char) : EnvMap :=
  if elemChar '=' kv then
    setEnv m (kv.takeWhile (fun c => !(c == '='))) ((kv.dropWhile (fun c => !(c == '='))).drop 1)
  else m

/-- The environment inherited from `os.Environ()`, folded into map form
(main.go lines 264-270). -/
def envFromInherited (inh : List (List Char)) : EnvMap :=
  inh.foldl seedEntry []

/-- The per-line logic of the env-merge scan loop (main.go lines 272-283):
trim the line; skip it when blank, a `#` comment, or without `=`; otherwise
split on the first `=`, trim the left side into the key and keep the right
side verbatim; skip an empty key.  Returns the assignment the line makes,
if any. -/
def envLine (raw : List Char) : Option (List Char × List Char) :=
  let t := trimSpace raw
  if t = [] then none
  else if t.head? = some '#' then none
  else if !(elemChar '=' t) then none
  else
    let k := trimSpace (t.takeWhile (fun c => !(c == '=')))
    let v := (t.dropWhile (fun c => !(c == '='))).drop 1
    if k = [] then none else some (k, v)

/-- One iteration of the scan loop: apply the line's assignment to the map,
if the line qualifies. -/
def applyLine (m : EnvMap) (line : List Char) : EnvMap :=
  match envLine line with
  | some (k, v) => setEnv m k v
  | none => m

/-- `runEnvExec`'s environment merge (main.go lines 263-283): seed the map
from the inherited environment, then overlay every qualifying line of the
decrypted plaintext in order. -/
def mergeEnv (inh : List (List Char)) (plain : List Char) : EnvMap :=
  (scanLines plain).foldl applyLine (envFromInherited inh)

/-! ## `run` subcommand argument parsing and exit codes
(`cmd/agepad/main.go`, `runEnvExec` lines 224-246 and `main` lines 117-130) -/

/-- Positions of the first and second `--` markers in the argument vector
(main.go lines 227-237; the Go code uses `-1` for absence, modelled with
`Option`).  The scan records the first marker and the next marker after it,
then stops. -/
def scanDashes : List String → Nat → Option Nat × Option Nat
  | [], _ => (none, none)
  | a :: rest, i =>
    if a = "--" then
      (some i, (rest.findIdx? (fun x => x == "--")).map (fun j => i + 1 + j))
    else scanDashes rest (i + 1)

/-- The usage checks of `runEnvExec` (main.go lines 226-246): both `--`
markers must be present, the second must not be the last token, and exactly
one file token must sit between them.  Returns the file token and the
command vector `args[secondDash+1:]`. -/
def parseRun (args : List String) : Except String (String × List String) :=
  match scanDashes args 0 with
  | (some f, some s) =>
    if s = args.length - 1 then
      .error "run usage: agepad run -- <file.age> -- <command> [args...]"
    else
      match (args.drop (f + 1)).take (s - f - 1) with
      | [file] => .ok (file, args.drop (s + 1))
      | _ => .error "run: expected exactly one AGE file after the first --"
  | _ => .error "run usage: agepad run -- <file.age> -- <command> [args...]"

/-- The side-effecting calls `runEnvExec` makes once its usage checks have
passed, in program order (main.go lines 254-300): load identities from the
default path, decrypt the target file, exec the command.  The model records
the call sites; the usage-error claims only need that none of them happen
on the error path. -/
inductive RunEff
  | loadIdentities (path : String)
  | decryptFile (path : String)
  | execCommand (argv : List String)
deriving DecidableEq

/-- `defaultIdentitiesPath()` (main.go lines 43-46); the home directory is
abstracted. -/
def defaultIdsPath : String := "HOME/.config/age/key.txt"

/-- `runEnvExec` up to its effect trace: a usage error produces no effects;
a well-formed invocation proceeds to the identity-loading / decrypt / exec
sequence (whose own failures are runtime errors, not usage errors). -/
def runEnvExecModel (args : List String) : Except String Unit × List RunEff :=
  match parseRun args with
  | .error e => (.error e, [])
  | .ok (file, argv) =>
    (.ok (), [.loadIdentities defaultIdsPath, .decryptFile file, .execCommand argv])

/-- The top-level error handling of `main` (main.go lines 126-129): every
error returned from the CLI command — usage errors included — is printed
and the process exits 1; success exits 0.  (Exit 3 is reserved for the
crash guard, lines 117-124; no code path in `cmd/agepad` exits 2.) -/
def exitCodeOf : Except String Unit → Nat
  | .error _ => 1
  | .ok _ => 0

/-- Exit code of `agepad run <args>` as far as the usage checks decide it. -/
def runSubcommandExitCode (args : List String) : Nat :=
  exitCodeOf (runEnvExecModel args).1

/-! ## File-system model and `AtomicEncryptWrite`
(`age` package, `AtomicEncryptWrite`; also monolithic `main.go`
`atomicEncryptWrite`)

Paths are lists of components; `filepath.Dir` and the name `os.CreateTemp`
builds from `filepath.Join(dir, pattern)` are modelled component-wise.  The
file system maps a path to the byte content of the file there, if any. -/

/-- A file-system path, by components. -/
abbrev FsPath := List (List Char)

/-- A directory tree: contents by path. -/
abbrev FS := FsPath → Option (List Char)

/-- Create or overwrite the file at `p`. -/
def fsSet (fs : FS) (p : FsPath) (c : List Char) : FS :=
  fun q => if q = p then some c else fs q

/-- Remove the file at `p` (`os.Remove` with the error ignored: a no-op when
the file is absent). -/
def fsDel (fs : FS) (p : FsPath) : FS :=
  fun q => if q = p then none else fs q

/-- `filepath.Dir`, component-wise. -/
def dirOf (p : FsPath) : FsPath := p.dropLast

/-- Does `s` begin with `pre`?  (Go `strings.HasPrefix`.) -/
def hasLead : List Char → List Char → Bool
  | [], _ => true
  | _ :: _, [] => false
  | a :: as, b :: bs => a == b && hasLead as bs

/-- The `os.CreateTemp` name pattern `.agepad-tmp-*` of
`AtomicEncryptWrite`. -/
def tmpMark : List Char := ".agepad-tmp-".data

/-- The temp path `os.CreateTemp(filepath.Dir(dstPath), ".agepad-tmp-*")`
chooses: a name in the destination's directory, final component the
pattern with `*` replaced by a fresh suffix `sfx`. -/
def tmpPathFor (dst : FsPath) (sfx : List Char) : FsPath :=
  dirOf dst ++ [tmpMark ++ sfx]

/-- Does the path's final component match the temp-file naming pattern
`.agepad-tmp-*`? -/
def isTmpName (p : FsPath) : Bool :=
  match p.getLast? with
  | some c => hasLead tmpMark c
  | none => false

/-- The failure points of `AtomicEncryptWrite`, in program order:
`os.CreateTemp`, `age.Encrypt` (stream creation), `w.Write`, `w.Close`,
`aw.Close` (armored branch only), `tmp.Sync`, `tmp.Close`, `os.Rename`. -/
inductive WStep
  | createTemp
  | encryptInit
  | writeData
  | closeEnc
  | closeArmor
  | syncTmp
  | closeTmp
  | renameTmp
deriving DecidableEq

/-- Does the fault schedule make any step of the write fail? -/
def anyFault (fault : WStep → Bool) : Bool :=
  fault .createTemp || fault .encryptInit || fault .writeData || fault .closeEnc ||
    fault .closeArmor || fault .syncTmp || fault .closeTmp || fault .renameTmp

/-- `AtomicEncryptWrite(dstPath, b, recips, useArmor)` over the model file
system.  `enc` is the encryption of the plaintext into the envelope that
ends up in the temp file (armored or binary; the two Go branches differ
only in which writers wrap the temp file, so they share one model).
`fault` injects a failure at any of the underlying operations; the first
failing step aborts with its error.  The deferred `os.Remove(tmpPath)` runs
on every exit path, so each early exit deletes the temp file (after
`os.CreateTemp` failed, no temp file exists); after a successful rename the
deferred remove is a no-op on the already-moved name. -/
def AtomicEncryptWrite (fault : WStep → Bool) (enc : List Char → List Char)
    (fs : FS) (dst : FsPath) (sfx : List Char) (content : List Char) :
    FS × Option WStep :=
  let tmp := tmpPathFor dst sfx
  if fault .createTemp then (fs, some .createTemp)
  else
    let fs₁ := fsSet fs tmp []
    if fault .encryptInit then (fsDel fs₁ tmp, some .encryptInit)
    else if fault .writeData then (fsDel fs₁ tmp, some .writeData)
    else if fault .closeEnc then (fsDel fs₁ tmp, some .closeEnc)
    else if fault .closeArmor then (fsDel fs₁ tmp, some .closeArmor)
    else
      let fs₂ := fsSet fs₁ tmp (enc content)
      if fault .syncTmp then (fsDel fs₂ tmp, some .syncTmp)
      else if fault .closeTmp then (fsDel fs₂ tmp, some .closeTmp)
      else if fault .renameTmp then (fsDel fs₂ tmp, some .renameTmp)
      else (fsDel (fsSet (fsDel fs₂ tmp) dst (enc content)) tmp, none)

/-! ## Recipient rotation (`cmd/agepad/main.go`, `runRotate` lines 196-221) -/

/-- The collaborators of the rotation loop: `dec` is the outcome of
`DecryptToMemory` as a function of the file's ciphertext content (`none`
models a decrypt failure), `enc` the armored re-encryption under the new
recipients, `fault` the per-file fault schedule of the atomic write, `sfx`
the per-file temp-name suffix `os.CreateTemp` picks. -/
structure RotCfg where
  dec : List Char → Option (List Char)
  enc : List Char → List Char
  fault : FsPath → WStep → Bool
  sfx : FsPath → List Char

/-- Rotation state: the evolving file system and the `ok`/`fail` counters of
`runRotate`. -/
structure RotRes where
  fs : FS
  ok : Nat
  fail : Nat

/-- One iteration of the rotation loop (main.go lines 203-216): decrypt the
file (an unreadable or undecryptable file counts as failed and the loop
continues), then re-encrypt and atomic-write it back to the same path (a
write failure also counts as failed and the loop continues). -/
def rotateFile (c : RotCfg) (r : RotRes) (f : FsPath) : RotRes :=
  match r.fs f with
  | none => { r with fail := r.fail + 1 }
  | some content =>
    match c.dec content with
    | none => { r with fail := r.fail + 1 }
    | some plain =>
      match AtomicEncryptWrite (c.fault f) c.enc r.fs f (c.sfx f) plain with
      | (fs', some _) => { fs := fs', ok := r.ok, fail := r.fail + 1 }
      | (fs', none) => { fs := fs', ok := r.ok + 1, fail := r.fail }

/-- The full rotation pass over the matched files. -/
def rotateLoop (c : RotCfg) (fs₀ : FS) (files : List FsPath) : RotRes :=
  files.foldl (rotateFile c) ⟨fs₀, 0, 0⟩

/-- `runRotate`'s overall verdict (main.go lines 198-200 and 217-221):
error when no files matched, or when any file failed; the succeeded files
stay committed either way. -/
def rotateJobError (c : RotCfg) (fs₀ : FS) (files : List FsPath) : Bool :=
  if files = [] then true else decide ((rotateLoop c fs₀ files).fail > 0)

/-- Does this file fail during the rotation pass, judged against the
initial tree: unreadable/undecryptable content, or any injected write
fault? -/
def rotFails (c : RotCfg) (fs₀ : FS) (f : FsPath) : Bool :=
  match fs₀ f with
  | none => true
  | some content =>
    match c.dec content with
    | none => true
    | some _ => anyFault (c.fault f)

/-! ## Crypto gateway composition (`age` package, `EncryptToMemory` and
`DecryptToMemory`)

The filippo.io/age primitive is an external collaborator; it is modelled as
a record of abstract operations on byte sequences.  The embedded repo code
is the composition: wrap the encryption stream in the armor encoder
(finalizing inner before outer, which the pure composition `arm ∘ encrypt`
reflects), and auto-detect armor on decrypt by attempting a one-byte
armored read before rewinding. -/

/-- Abstract external age primitive.  `armorHeaderRead s` models whether a
one-byte read through `armor.NewReader` succeeds on content `s` (true
exactly on armored envelopes). -/
structure AgePrim where
  encrypt : List Char → List String → Option (List Char)
  decrypt : List Char → List String → Option (List Char)
  arm : List Char → List Char
  dearm : List Char → Option (List Char)
  armorHeaderRead : List Char → Bool

/-- `EncryptToMemory(plaintext, recips, useArmor)`: encrypt, and when
`useArmor` is set wrap the envelope in armor (the encryption stream closes
before the armor wrapper, inner-then-outer). -/
def EncryptToMemory (P : AgePrim) (plaintext : List Char) (recips : List String)
    (useArmor : Bool) : Option (List Char) :=
  match P.encrypt plaintext recips with
  | none => none
  | some c => some (if useArmor then P.arm c else c)

/-- `DecryptToMemory(cipherPath, ids)` applied to the file's content:
probe for armor with a one-byte armored read, rewind, then decrypt through
the armor decoder or directly. -/
def DecryptToMemory (P : AgePrim) (content : List Char) (ids : List String) :
    Option (List Char) :=
  if P.armorHeaderRead content then
    match P.dearm content with
    | none => none
    | some c => P.decrypt c ids
  else
    P.decrypt content ids

/-- A tiny concrete primitive satisfying the age laws, for evaluating the
round-trip theorem on concrete data: `E`-tagged envelopes, `-`-prefixed
armor. -/
def toyAge : AgePrim where
  encrypt := fun p r => if r = [] then none else some ('E' :: p)
  decrypt := fun c i =>
    if i = [] then none
    else
      match c with
      | 'E' :: rest => some rest
      | _ => none
  arm := fun c => '-' :: c
  dearm := fun s =>
    match s with
    | '-' :: c => some c
    | _ => none
  armorHeaderRead := fun s => decide (s.head? = some '-')

/-! ## Editor state machine (`tui/tui.go`, `Model.Update`)

The Bubble Tea `Update` function, embedded as a pure step function over the
model state.  The outcomes of the external collaborators along the save
path — `validator.ValidateByExt`, the preflight `EncryptToMemory` /
`age.Decrypt` pair, and `AtomicEncryptWrite` — are supplied by an oracle as
functions of the buffer being saved, since the state machine only branches
on their success.  Disk traffic is reified as an effect list: `Update`
touches the disk only through `AtomicEncryptWrite`, which the step emits as
an `Effect.atomicWrite`; `tea.Quit` is `Effect.quit`. -/

/-- Outcomes of the external calls the save path makes, as functions of the
buffer contents being saved. -/
structure Oracle where
  validateOk : String → Bool
  encryptOk : String → Bool
  decryptOk : String → Bool
  writeOk : String → Bool
  diffEmpty : String → String → Bool

/-- The TUI model state (tui.go lines 71-88).  `savedAt` (a wall-clock
timestamp) is omitted; rendered status texts are kept to their
branch-identifying constant parts, with diff previews abbreviated
(terminal rendering is an external collaborator). -/
structure EditorModel where
  filePath : String
  viewOnly : Bool
  armor : Bool
  orig : String
  buf : String
  status : String
  err : Option String
  changed : Bool
  pendingConfirm : Bool
  lastSnapshot : String
deriving DecidableEq

/-- Events the update loop consumes: the snapshot tick, the three bound
keys (`ctrl+q`/`esc` share a branch), and any other message, which is
forwarded to the textarea and yields its new buffer value. -/
inductive Event
  | tick
  | ctrlQ
  | ctrlD
  | ctrlS
  | edit (v : String)

/-- Externally visible commands the step issues. -/
inductive Effect
  | quit
  | atomicWrite (path : String) (content : String)
deriving DecidableEq

/-- `NewModel(cfg, plaintext, ids, recips)` (tui.go lines 93-116). -/
def initModel (filePath : String) (viewOnly armor : Bool) (plaintext : String) :
    EditorModel where
  filePath := filePath
  viewOnly := viewOnly
  armor := armor
  orig := plaintext
  buf := plaintext
  status := "Opened (RAM). Ctrl+D: diff  Ctrl+S: save  Ctrl+Q: quit"
  err := none
  changed := false
  pendingConfirm := false
  lastSnapshot := plaintext

/-- `Model.Update` (tui.go lines 125-219), one event to completion. -/
def step (o : Oracle) (m : EditorModel) : Event → EditorModel × List Effect
  | .tick => ({ m with lastSnapshot := m.buf }, [])
  | .ctrlQ =>
    if m.changed ∧ ¬m.viewOnly ∧ ¬m.pendingConfirm then
      ({ m with status := "Unsaved changes; press Ctrl+Q again to quit without saving",
                pendingConfirm := true }, [])
    else (m, [.quit])
  | .ctrlD =>
    if o.diffEmpty m.orig m.buf then
      ({ m with status := "No changes to show (buffers identical).",
                pendingConfirm := false }, [])
    else
      ({ m with status := "Diff preview", pendingConfirm := false }, [])
  | .ctrlS =>
    if m.viewOnly then
      ({ m with status := "View-only mode: saving disabled." }, [])
    else if ¬o.validateOk m.buf then
      ({ m with err := some "validation failed",
                status := "Validation failed; not saved.",
                pendingConfirm := false }, [])
    else if ¬o.encryptOk m.buf then
      ({ m with err := some "preflight encrypt",
                status := "Save aborted.",
                pendingConfirm := false }, [])
    else if ¬o.decryptOk m.buf then
      ({ m with err := some "preflight decrypt failed with current identities",
                status := "Save aborted. Update recipients or identities.",
                pendingConfirm := false }, [])
    else if m.buf ≠ m.orig ∧ ¬m.pendingConfirm then
      ({ m with status := "About to save. Press Ctrl+S again to confirm.",
                pendingConfirm := true }, [])
    else if o.writeOk m.buf then
      ({ m with err := none, status := "Saved", orig := m.buf, changed := false,
                pendingConfirm := false },
        [.atomicWrite m.filePath m.buf])
    else
      ({ m with err := some "save failed", status := "Save failed",
                pendingConfirm := false },
        [.atomicWrite m.filePath m.buf])
  | .edit v =>
    if m.buf ≠ v then
      ({ m with buf := v, changed := true, pendingConfirm := false }, [])
    else ({ m with buf := v }, [])

/-- The states the editor can reach from a fresh `NewModel`, under any
sequence of events and any run-to-run outcomes of the external calls. -/
inductive Reachable : EditorModel → Prop
  | init (filePath : String) (viewOnly armor : Bool) (plaintext : String) :
      Reachable (initModel filePath viewOnly armor plaintext)
  | next (m : EditorModel) (o : Oracle) (e : Event) :
      Reachable m → Reachable (step o m e).1

/-- An oracle under which every external call succeeds. -/
def allOk : Oracle where
  validateOk := fun _ => true
  encryptOk := fun _ => true
  decryptOk := fun _ => true
  writeOk := fun _ => true
  diffEmpty := fun a b => a == b

/-- An oracle whose preflight encryption fails (and everything else
succeeds). -/
def failPreflight : Oracle where
  validateOk := fun _ => true
  encryptOk := fun _ => false
  decryptOk := fun _ => true
  writeOk := fun _ => true
  diffEmpty := fun a b => a == b

/-! ## Concrete fixtures for evaluating the theorems on closed inputs -/

/-- A dirty editor state: buffer `"b"` differs from the snapshot `"a"`, no
confirmation pending. -/
def wEd : EditorModel where
  filePath := "f"
  viewOnly := false
  armor := true
  orig := "a"
  buf := "b"
  status := ""
  err := none
  changed := true
  pendingConfirm := false
  lastSnapshot := "a"

/-- A destination path for the atomic-write fixture. -/
def wDst : FsPath := ["secrets".data, "app.age".data]

/-- A one-file tree holding old content at the destination. -/
def wTree : FS := fun q => if q = wDst then some ("old".data) else none

/-- A three-file batch for the rotation fixture. -/
def wFiles : List FsPath := [["a.age".data], ["b.age".data], ["c.age".data]]

/-- The rotation fixture tree: three ciphertext files. -/
def wRotTree : FS := fun q =>
  if q = ["a.age".data] then some ("ca".data)
  else if q = ["b.age".data] then some ("cb".data)
  else if q = ["c.age".data] then some ("cc".data)
  else none

/-- Rotation collaborators for the fixture: file `a.age`'s content fails to
decrypt, everything else succeeds, no write faults. -/
def wRot : RotCfg where
  dec := fun content => if content = "ca".data then none else some content
  enc := fun p => 'X' :: p
  fault := fun _ _ => false
  sfx := fun _ => "t".data

/-! ### Lemmas about the env merge -/

theorem lookup_setEnv (m : EnvMap) (k v q : List Char) :
    lookupEnv (setEnv m k v) q = if k = q then some v else lookupEnv m q := by
  induction m with
  | nil =>
    by_cases h : k = q <;> simp [setEnv, lookupEnv, h]
  | cons a t ih =>
    obtain ⟨k₀, v₀⟩ := a
    by_cases h₀ : k₀ = k
    · subst h₀
      by_cases h : k₀ = q <;> simp [setEnv, lookupEnv, h]
    · by_cases h : k₀ = q
      · subst h
        simp [setEnv, lookupEnv, h₀, Ne.symm h₀]
      · simp [setEnv, lookupEnv, h₀, h, ih]

theorem find?_concat {α : Type} (l : List α) (a : α) (p : α → Bool) :
    (l ++ [a]).find? p =
      match l.find? p with
      | some x => some x
      | none => if p a then some a else none := by
  induction l with
  | nil =>
    by_cases h : p a <;> simp [List.find?, h]
  | cons b t ih =>
    by_cases h : p b <;> simp [List.find?, h, ih]

/-- Fold the per-line merge as a fold over the stream of assignments the
qualifying lines make. -/
theorem foldl_applyLine (lines : List (List Char)) (m : EnvMap) :
    lines.foldl applyLine m =
      (lines.filterMap envLine).foldl (fun m a => setEnv m a.1 a.2) m := by
  induction lines generalizing m with
  | nil => rfl
  | cons l t ih =>
    cases h : envLine l with
    | none => simp [List.foldl, applyLine, h, List.filterMap_cons, ih]
    | some a =>
      obtain ⟨k, v⟩ := a
      simp [List.foldl, applyLine, h, List.filterMap_cons, ih]

theorem lookup_foldl_set (l : List (List Char × List Char)) (m : EnvMap) (k : List Char) :
    lookupEnv (l.foldl (fun m a => setEnv m a.1 a.2) m) k =
      match l.reverse.find? (fun a => decide (a.1 = k)) with
      | some a => some a.2
      | none => lookupEnv m k := by
  induction l generalizing m with
  | nil => rfl
  | cons a t ih =>
    rw [List.foldl_cons, ih, List.reverse_cons, find?_concat]
    cases ht : t.reverse.find? (fun a => decide (a.1 = k)) with
    | some b => simp
    | none =>
      by_cases h : a.1 = k <;> simp [h, lookup_setEnv]

theorem dropWhile_eq_self_of_head (p : Char → Bool) (s : List Char)
    (h : ∀ c, s.head? = some c → p c = false) : s.dropWhile p = s := by
  cases s with
  | nil => rfl
  | cons a t => simp [List.dropWhile, h a rfl]

theorem trimSpace_eq_self (s : List Char)
    (h1 : ∀ c, s.head? = some c → isSpaceChar c = false)
    (h2 : ∀ c, s.getLast? = some c → isSpaceChar c = false) : trimSpace s = s := by
  unfold trimSpace
  rw [dropWhile_eq_self_of_head _ _ h1, dropWhile_eq_self_of_head, List.reverse_reverse]
  intro c hc
  exact h2 c (by rwa [List.head?_reverse] at hc)

theorem elemChar_append (c : Char) (l₁ l₂ : List Char) :
    elemChar c (l₁ ++ l₂) = (elemChar c l₁ || elemChar c l₂) := by
  induction l₁ with
  | nil => simp [elemChar]
  | cons a t ih => simp [elemChar, ih, Bool.or_assoc]

theorem takeWhile_until_eq (k v : List Char) (h : elemChar '=' k = false) :
    (k ++ '=' :: v).takeWhile (fun c => !(c == '=')) = k := by
  induction k with
  | nil => simp [List.takeWhile_cons]
  | cons a t ih =>
    simp only [elemChar, Bool.or_eq_false_iff] at h
    simp [List.takeWhile_cons, h.1, ih h.2]

theorem dropWhile_until_eq (k v : List Char) (h : elemChar '=' k = false) :
    (k ++ '=' :: v).dropWhile (fun c => !(c == '=')) = '=' :: v := by
  induction k with
  | nil => simp [List.dropWhile_cons]
  | cons a t ih =>
    simp only [elemChar, Bool.or_eq_false_iff] at h
    simp [List.dropWhile_cons, h.1, ih h.2]

/-- C10 — the merged environment maps a key to the value of the last
qualifying line that assigns it; a key no line assigns keeps its inherited
value. -/
theorem lookup_mergeEnv (inh : List (List Char)) (plain : List Char) (k : List Char) :
    lookupEnv (mergeEnv inh plain) k =
      match ((scanLines plain).filterMap envLine).reverse.find? (fun a => decide (a.1 = k)) with
      | some a => some a.2
      | none => lookupEnv (envFromInherited inh) k := by
  rw [mergeEnv, foldl_applyLine, lookup_foldl_set]

/-- C8 amended — a qualifying line whose key is already trimmed and whose
value carries no trailing whitespace parses to exactly that key and that
value: leading and embedded whitespace in the value survives verbatim.
(Trailing whitespace of the value does not survive, because the whole line
is trimmed before the split; see the counterexample.) -/
theorem envLine_value_verbatim (k v : List Char)
    (hk0 : k ≠ [])
    (hkeq : elemChar '=' k = false)
    (hkh : ∀ c, k.head? = some c → isSpaceChar c = false ∧ c ≠ '#')
    (hkl : ∀ c, k.getLast? = some c → isSpaceChar c = false)
    (hvl : ∀ c, v.getLast? = some c → isSpaceChar c = false) :
    envLine (k ++ '=' :: v) = some (k, v) := by
  obtain ⟨a, t, rfl⟩ : ∃ a t, k = a :: t := by
    cases k with
    | nil => exact absurd rfl hk0
    | cons a t => exact ⟨a, t, rfl⟩
  have hlast : ∀ c, (a :: (t ++ '=' :: v)).getLast? = some c → isSpaceChar c = false := by
    intro c hc
    have : ((a :: t) ++ '=' :: v).getLast? = some c := hc
    rw [List.getLast?_append_cons] at this
    cases v with
    | nil =>
      simp [List.getLast?] at this
      subst this
      decide
    | cons b u =>
      rw [List.getLast?_cons_cons] at this
      exact hvl c this
  have hhead : ∀ c, (a :: (t ++ '=' :: v)).head? = some c → isSpaceChar c = false := by
    intro c hc
    simp at hc
    subst hc
    exact (hkh a rfl).1
  have htrim : trimSpace (a :: (t ++ '=' :: v)) = a :: (t ++ '=' :: v) :=
    trimSpace_eq_self _ hhead hlast
  have htrimk : trimSpace (a :: t) = a :: t := by
    refine trimSpace_eq_self _ (fun c hc => ?_) hkl
    simp at hc
    subst hc
    exact (hkh a rfl).1
  have hne : a :: (t ++ '=' :: v) ≠ [] := by simp
  have hhash : ¬ (a :: (t ++ '=' :: v)).head? = some '#' := by
    intro hc
    simp at hc
    exact (hkh a rfl).2 hc
  have helem : elemChar '=' (a :: (t ++ '=' :: v)) = true := by
    have : elemChar '=' ((a :: t) ++ '=' :: v) = true := by
      rw [elemChar_append]
      simp [elemChar]
    exact this
  have htake : (a :: (t ++ '=' :: v)).takeWhile (fun c => !(c == '=')) = a :: t :=
    takeWhile_until_eq _ _ hkeq
  have hdrop : (a :: (t ++ '=' :: v)).dropWhile (fun c => !(c == '=')) = '=' :: v :=
    dropWhile_until_eq _ _ hkeq
  simp [envLine, htrim, helem, hne, hhash, htake, hdrop, htrimk]
  exact (hkh a rfl).2

/-- C8 witness: a value with leading and embedded whitespace (and none
trailing) survives verbatim. -/
theorem envLine_value_verbatim_witness :
    envLine ("B".data ++ '=' :: "  two  words".data) =
      some ("B".data, "  two  words".data) :=
  envLine_value_verbatim ("B".data) ("  two  words".data) (by decide) (by decide)
    (by decide) (by decide) (by decide)

/-- C8 counterexample: the qualifying line `A=1 ` carries a value with
trailing whitespace, but the merged environment records `"1"`, not `"1 "`:
the whole line is trimmed before the split on `=`, so trailing whitespace
of a value does not survive, contradicting "that whitespace survives
verbatim" for the trailing case. -/
theorem env_value_trailing_space_lost :
    lookupEnv (mergeEnv [] ("A=1 \n".data)) ("A".data) = some ("1".data) ∧
    lookupEnv (mergeEnv [] ("A=1 \n".data)) ("A".data) ≠ some ("1 ".data) := by
  decide

/-- C7: the env-injection merge on the reference plaintext over the
inherited environment `{A:0, C:x}` yields exactly `{A:1, B:two words,
C:x}`; the malformed lines make no assignment (and the merge loop has no
error path — `envLine` only ever skips a line). -/
theorem env_merge_reference_vector :
    mergeEnv ["A=0".data, "C=x".data]
        ("A=1\n#comment\nB=two words\n=badline\nNOEQUALS\n".data) =
      [("A".data, "1".data), ("C".data, "x".data), ("B".data, "two words".data)] ∧
    lookupEnv (mergeEnv ["A=0".data, "C=x".data]
        ("A=1\n#comment\nB=two words\n=badline\nNOEQUALS\n".data)) ("A".data) =
      some ("1".data) ∧
    lookupEnv (mergeEnv ["A=0".data, "C=x".data]
        ("A=1\n#comment\nB=two words\n=badline\nNOEQUALS\n".data)) ("B".data) =
      some ("two words".data) ∧
    lookupEnv (mergeEnv ["A=0".data, "C=x".data]
        ("A=1\n#comment\nB=two words\n=badline\nNOEQUALS\n".data)) ("C".data) =
      some ("x".data) ∧
    envLine ("=badline".data) = none ∧
    envLine ("NOEQUALS".data) = none := by
  decide

/-! ### Round trip through the crypto gateway -/

/-- C5: for a plaintext, a recipient set and a matching identity set — and
an external primitive obeying the age laws for that triple (binary round
trip, armor round trip, armor detection positive on armored and negative on
binary envelopes) — decrypting the output of `EncryptToMemory` via the
armor-auto-detecting `DecryptToMemory` recovers the plaintext, for both
armor settings. -/
theorem encrypt_decrypt_roundtrip (P : AgePrim) (p c : List Char)
    (recips ids : List String)
    (henc : P.encrypt p recips = some c)
    (hdec : P.decrypt c ids = some p)
    (hdearm : P.dearm (P.arm c) = some c)
    (hdet : P.armorHeaderRead (P.arm c) = true)
    (hbin : P.armorHeaderRead c = false) :
    (EncryptToMemory P p recips true).bind (fun ct => DecryptToMemory P ct ids) =
      some p ∧
    (EncryptToMemory P p recips false).bind (fun ct => DecryptToMemory P ct ids) =
      some p := by
  constructor <;>
    simp [EncryptToMemory, DecryptToMemory, henc, hdec, hdearm, hdet, hbin]

/-- C5 witness: the round trip evaluated on the toy primitive at concrete
data, for both armor settings. -/
theorem encrypt_decrypt_roundtrip_witness :
    (EncryptToMemory toyAge ("hi".data) ["r"] true).bind
        (fun ct => DecryptToMemory toyAge ct ["i"]) = some ("hi".data) ∧
    (EncryptToMemory toyAge ("hi".data) ["r"] false).bind
        (fun ct => DecryptToMemory toyAge ct ["i"]) = some ("hi".data) :=
  encrypt_decrypt_roundtrip toyAge ("hi".data) ('E' :: "hi".data) ["r"] ["i"]
    (by decide) (by decide) (by decide) (by decide) (by decide)

/-! ### Usage errors and exit codes -/

/-- C9 counterexample: `agepad run --` is a malformed invocation (the
second `--` marker is missing), and the process exits with status 1 — not
2: `main` maps every returned error to exit 1 (main.go lines 126-129), so
usage errors are not distinguished from generic runtime failures by exit
code. -/
theorem usage_error_exit_code_not_two :
    (∃ msg, parseRun ["--"] = .error msg) ∧
    runSubcommandExitCode ["--"] = 1 ∧
    runSubcommandExitCode ["--"] ≠ 2 :=
  ⟨⟨_, rfl⟩, rfl, by decide⟩

/-- C9 amended: a malformed `run` invocation is rejected by the usage
checks before any side effect — no identity load, no decrypt, no exec —
and the process exits with status 1, the same status as generic runtime
failures (the current CLI has no exit-2 path; exit 3 is the crash guard). -/
theorem usage_error_exits_one_no_side_effects (args : List String) (msg : String)
    (h : parseRun args = .error msg) :
    runSubcommandExitCode args = 1 ∧ (runEnvExecModel args).2 = [] := by
  simp [runSubcommandExitCode, runEnvExecModel, exitCodeOf, h]

/-- C9 witness: the amended behavior at the concrete malformed invocation
`agepad run -- file.age` (no second `--`). -/
theorem usage_error_exits_one_no_side_effects_witness :
    runSubcommandExitCode ["--", "file.age"] = 1 ∧
    (runEnvExecModel ["--", "file.age"]).2 = [] :=
  usage_error_exits_one_no_side_effects ["--", "file.age"] _ rfl

/-! ### File-system lemmas and the atomic-write guarantees -/

theorem fsSet_fsSet (fs : FS) (p : FsPath) (a b : List Char) :
    fsSet (fsSet fs p a) p b = fsSet fs p b := by
  funext q
  by_cases h : q = p <;> simp [fsSet, h]

theorem fsDel_fsSet_self (fs : FS) (p : FsPath) (a : List Char) :
    fsDel (fsSet fs p a) p = fsDel fs p := by
  funext q
  by_cases h : q = p <;> simp [fsDel, fsSet, h]

theorem fsDel_of_none (fs : FS) (p : FsPath) (h : fs p = none) :
    fsDel fs p = fs := by
  funext q
  by_cases hq : q = p
  · rw [hq]
    simp [fsDel, h]
  · simp [fsDel, hq]

theorem fsDel_fsSet_of_ne (fs : FS) (p d : FsPath) (c : List Char)
    (hne : p ≠ d) (h : fs p = none) : fsDel (fsSet fs d c) p = fsSet fs d c := by
  funext q
  by_cases hq : q = p
  · rw [hq]
    simp [fsDel, fsSet, hne, h]
  · simp [fsDel, hq]

theorem hasLead_append (pre rest : List Char) : hasLead pre (pre ++ rest) = true := by
  induction pre with
  | nil => rfl
  | cons a t ih => simp [hasLead, ih]

theorem getLast?_tmpPathFor (dst : FsPath) (sfx : List Char) :
    (tmpPathFor dst sfx).getLast? = some (tmpMark ++ sfx) := by
  simp [tmpPathFor]

theorem isTmpName_tmpPathFor (dst : FsPath) (sfx : List Char) :
    isTmpName (tmpPathFor dst sfx) = true := by
  rw [isTmpName, getLast?_tmpPathFor]
  exact hasLead_append tmpMark sfx

theorem dirOf_tmpPathFor (dst : FsPath) (sfx : List Char) :
    dirOf (tmpPathFor dst sfx) = dirOf dst := by
  simp [tmpPathFor, dirOf]

/-- Net effect of `AtomicEncryptWrite` on the tree, given a fresh temp
name distinct from the destination: any failure leaves the tree as it was;
success replaces the destination's content; and the call errors exactly
when some underlying step faulted. -/
theorem AtomicEncryptWrite_spec (fault : WStep → Bool) (enc : List Char → List Char)
    (fs : FS) (dst : FsPath) (sfx : List Char) (content : List Char)
    (hfresh : fs (tmpPathFor dst sfx) = none)
    (hne : tmpPathFor dst sfx ≠ dst) :
    (AtomicEncryptWrite fault enc fs dst sfx content).1 =
      (if anyFault fault then fs else fsSet fs dst (enc content)) ∧
    ((AtomicEncryptWrite fault enc fs dst sfx content).2 = none ↔
      anyFault fault = false) := by
  unfold AtomicEncryptWrite anyFault
  by_cases h1 : fault .createTemp
  · simp [h1]
  · by_cases h2 : fault .encryptInit
    · simp [h1, h2, fsDel_fsSet_self, fsDel_of_none _ _ hfresh]
    · by_cases h3 : fault .writeData
      · simp [h1, h2, h3, fsDel_fsSet_self, fsDel_of_none _ _ hfresh]
      · by_cases h4 : fault .closeEnc
        · simp [h1, h2, h3, h4, fsDel_fsSet_self, fsDel_of_none _ _ hfresh]
        · by_cases h5 : fault .closeArmor
          · simp [h1, h2, h3, h4, h5, fsDel_fsSet_self, fsDel_of_none _ _ hfresh]
          · by_cases h6 : fault .syncTmp
            · simp [h1, h2, h3, h4, h5, h6, fsSet_fsSet, fsDel_fsSet_self,
                fsDel_of_none _ _ hfresh]
            · by_cases h7 : fault .closeTmp
              · simp [h1, h2, h3, h4, h5, h6, h7, fsSet_fsSet, fsDel_fsSet_self,
                  fsDel_of_none _ _ hfresh]
              · by_cases h8 : fault .renameTmp
                · simp [h1, h2, h3, h4, h5, h6, h7, h8, fsSet_fsSet,
                    fsDel_fsSet_self, fsDel_of_none _ _ hfresh]
                · simp [h1, h2, h3, h4, h5, h6, h7, h8, fsSet_fsSet,
                    fsDel_fsSet_self, fsDel_of_none _ _ hfresh,
                    fsDel_fsSet_of_ne _ _ _ _ hne hfresh]

/-- C4: after any `AtomicEncryptWrite` call — success or failure at any
step — the temp name is absent; no path other than the destination and the
temp name is touched; on failure the destination is byte-for-byte
unchanged; on success it holds the new envelope; the temp file lives in the
destination's directory and matches the `.agepad-tmp-*` pattern; and a
directory holding no `.agepad-tmp-*` files beforehand holds none
afterwards. -/
theorem atomic_write_cleanup (fault : WStep → Bool) (enc : List Char → List Char)
    (fs : FS) (dst : FsPath) (sfx : List Char) (content : List Char)
    (hfresh : fs (tmpPathFor dst sfx) = none)
    (hdst : isTmpName dst = false) :
    (AtomicEncryptWrite fault enc fs dst sfx content).1 (tmpPathFor dst sfx) = none ∧
    (∀ p, p ≠ dst → p ≠ tmpPathFor dst sfx →
      (AtomicEncryptWrite fault enc fs dst sfx content).1 p = fs p) ∧
    ((AtomicEncryptWrite fault enc fs dst sfx content).2 ≠ none →
      (AtomicEncryptWrite fault enc fs dst sfx content).1 dst = fs dst) ∧
    ((AtomicEncryptWrite fault enc fs dst sfx content).2 = none →
      (AtomicEncryptWrite fault enc fs dst sfx content).1 dst = some (enc content)) ∧
    dirOf (tmpPathFor dst sfx) = dirOf dst ∧
    isTmpName (tmpPathFor dst sfx) = true ∧
    (∀ p, isTmpName p = true → fs p = none →
      (AtomicEncryptWrite fault enc fs dst sfx content).1 p = none) := by
  have hne : tmpPathFor dst sfx ≠ dst := by
    intro h
    rw [← h] at hdst
    rw [isTmpName_tmpPathFor] at hdst
    exact absurd hdst (by simp)
  obtain ⟨hfs, hres⟩ := AtomicEncryptWrite_spec fault enc fs dst sfx content hfresh hne
  have htmpnone : (AtomicEncryptWrite fault enc fs dst sfx content).1
      (tmpPathFor dst sfx) = none := by
    rw [hfs]
    by_cases ha : anyFault fault
    · simp [ha, hfresh]
    · simp [ha, fsSet, hne, hfresh]
  have hframe : ∀ p, p ≠ dst → p ≠ tmpPathFor dst sfx →
      (AtomicEncryptWrite fault enc fs dst sfx content).1 p = fs p := by
    intro p hp _
    rw [hfs]
    by_cases ha : anyFault fault
    · simp [ha]
    · simp [ha, fsSet, hp]
  refine ⟨htmpnone, hframe, ?_, ?_, dirOf_tmpPathFor dst sfx,
    isTmpName_tmpPathFor dst sfx, ?_⟩
  · intro h
    have ha : anyFault fault = true := by
      rcases Bool.eq_false_or_eq_true (anyFault fault) with hb | hb
      · exact hb
      · exact absurd (hres.mpr hb) h
    rw [hfs]
    simp [ha]
  · intro h
    have ha : anyFault fault = false := hres.mp h
    rw [hfs]
    simp [ha, fsSet]
  · intro p hp hnone
    by_cases hq : p = tmpPathFor dst sfx
    · rw [hq]
      exact htmpnone
    · have hpd : p ≠ dst := by
        intro hcontra
        rw [hcontra, hdst] at hp
        exact Bool.false_ne_true hp
      rw [hframe p hpd hq]
      exact hnone

/-! ### Rotation: per-file characterization and loop invariant -/

/-- One rotation iteration, characterized against the initial tree: a
failing file only bumps the `fail` counter and leaves the tree untouched; a
succeeding file is re-encrypted in place and bumps `ok`. -/
theorem rotateFile_char (c : RotCfg) (fs₀ : FS) (f : FsPath) (fs : FS) (ok fail : Nat)
    (hagf : fs f = fs₀ f)
    (hfrf : fs (tmpPathFor f (c.sfx f)) = none)
    (htff : tmpPathFor f (c.sfx f) ≠ f) :
    (rotFails c fs₀ f = true → rotateFile c ⟨fs, ok, fail⟩ f = ⟨fs, ok, fail + 1⟩) ∧
    (rotFails c fs₀ f = false →
      ∃ content plain, fs₀ f = some content ∧ c.dec content = some plain ∧
        rotateFile c ⟨fs, ok, fail⟩ f = ⟨fsSet fs f (c.enc plain), ok + 1, fail⟩) := by
  cases h0 : fs₀ f with
  | none =>
    constructor
    · intro _
      simp [rotateFile, hagf, h0]
    · intro hcontra
      simp [rotFails, h0] at hcontra
  | some content =>
    cases h1 : c.dec content with
    | none =>
      constructor
      · intro _
        simp [rotateFile, hagf, h0, h1]
      · intro hcontra
        simp [rotFails, h0, h1] at hcontra
    | some plain =>
      have hrot : rotFails c fs₀ f = anyFault (c.fault f) := by
        simp [rotFails, h0, h1]
      obtain ⟨hfs1, hres1⟩ :=
        AtomicEncryptWrite_spec (c.fault f) c.enc fs f (c.sfx f) plain hfrf htff
      rcases hAW : AtomicEncryptWrite (c.fault f) c.enc fs f (c.sfx f) plain
        with ⟨fs', res⟩
      rw [hAW] at hfs1 hres1
      simp only at hfs1 hres1
      constructor
      · intro hfl
        rw [hrot] at hfl
        cases res with
        | none => exact absurd (hres1.mp rfl) (by simp [hfl])
        | some w =>
          simp only [rotateFile, hagf, h0, h1, hAW]
          rw [hfs1, if_pos hfl]
      · intro hfl
        rw [hrot] at hfl
        cases res with
        | some w =>
          exact absurd (hres1.mpr hfl) (by simp)
        | none =>
          refine ⟨content, plain, rfl, h1, ?_⟩
          simp only [rotateFile, hagf, h0, h1, hAW]
          rw [hfs1, if_neg (by simp [hfl])]

/-- Loop invariant of the rotation pass, generalized over the entry state:
counters accumulate one unit per file according to whether it fails; paths
outside the batch (and its temp names) are untouched; failing files keep
their initial content; succeeding files end up re-encrypted. -/
theorem rotateLoop_spec (c : RotCfg) (fs₀ : FS) (files : List FsPath) :
    ∀ (fs : FS) (ok fail : Nat),
      files.Nodup →
      (∀ g ∈ files, ∀ x ∈ files, tmpPathFor g (c.sfx g) ≠ x) →
      (∀ g ∈ files, fs (tmpPathFor g (c.sfx g)) = none) →
      (∀ g ∈ files, fs g = fs₀ g) →
      (files.foldl (rotateFile c) ⟨fs, ok, fail⟩).ok =
          ok + (files.filter (fun x => !(rotFails c fs₀ x))).length ∧
      (files.foldl (rotateFile c) ⟨fs, ok, fail⟩).fail =
          fail + (files.filter (rotFails c fs₀)).length ∧
      (∀ q, (∀ x ∈ files, q ≠ x) → (∀ x ∈ files, q ≠ tmpPathFor x (c.sfx x)) →
        (files.foldl (rotateFile c) ⟨fs, ok, fail⟩).fs q = fs q) ∧
      (∀ g ∈ files, rotFails c fs₀ g = true →
        (files.foldl (rotateFile c) ⟨fs, ok, fail⟩).fs g = fs₀ g) ∧
      (∀ g ∈ files, rotFails c fs₀ g = false →
        ∃ content plain, fs₀ g = some content ∧ c.dec content = some plain ∧
          (files.foldl (rotateFile c) ⟨fs, ok, fail⟩).fs g = some (c.enc plain)) := by
  induction files with
  | nil =>
    intro fs ok fail _ _ _ _
    exact ⟨by simp, by simp, fun q _ _ => rfl, by simp, by simp⟩
  | cons f rest ih =>
    intro fs ok fail hnd htmp hfr hag
    have hndr : rest.Nodup := (List.nodup_cons.mp hnd).2
    have hfnotin : f ∉ rest := (List.nodup_cons.mp hnd).1
    have htmpr : ∀ g ∈ rest, ∀ x ∈ rest, tmpPathFor g (c.sfx g) ≠ x :=
      fun g hg x hx =>
        htmp g (List.mem_cons_of_mem f hg) x (List.mem_cons_of_mem f hx)
    have htff : tmpPathFor f (c.sfx f) ≠ f :=
      htmp f (List.mem_cons_self f rest) f (List.mem_cons_self f rest)
    have hagf : fs f = fs₀ f := hag f (List.mem_cons_self f rest)
    have hfrf : fs (tmpPathFor f (c.sfx f)) = none :=
      hfr f (List.mem_cons_self f rest)
    have hfne : ∀ x ∈ rest, f ≠ x := fun x hx hfx => hfnotin (hfx ▸ hx)
    have hftne : ∀ x ∈ rest, f ≠ tmpPathFor x (c.sfx x) := fun x hx =>
      (htmp x (List.mem_cons_of_mem f hx) f (List.mem_cons_self f rest)).symm
    obtain ⟨hfail_case, hsucc_case⟩ := rotateFile_char c fs₀ f fs ok fail hagf hfrf htff
    rw [List.foldl_cons]
    cases hrf : rotFails c fs₀ f with
    | true =>
      rw [hfail_case hrf]
      obtain ⟨iok, ifail, iframe, ifailfs, isucc⟩ :=
        ih fs ok (fail + 1) hndr htmpr
          (fun g hg => hfr g (List.mem_cons_of_mem f hg))
          (fun g hg => hag g (List.mem_cons_of_mem f hg))
      refine ⟨?_, ?_, ?_, ?_, ?_⟩
      · rw [iok]
        simp [List.filter_cons, hrf]
      · rw [ifail]
        simp only [List.filter_cons, hrf, if_pos, List.length_cons]
        omega
      · intro q hq hqt
        exact iframe q (fun x hx => hq x (List.mem_cons_of_mem f hx))
          (fun x hx => hqt x (List.mem_cons_of_mem f hx))
      · intro g hg hgf
        rcases List.mem_cons.mp hg with rfl | hg'
        · rw [iframe g hfne hftne]
          exact hagf
        · exact ifailfs g hg' hgf
      · intro g hg hgf
        rcases List.mem_cons.mp hg with rfl | hg'
        · rw [hrf] at hgf
          exact absurd hgf (by simp)
        · exact isucc g hg' hgf
    | false =>
      obtain ⟨content, plain, hc, hp, heq⟩ := hsucc_case hrf
      rw [heq]
      have hfr' : ∀ g ∈ rest, fsSet fs f (c.enc plain) (tmpPathFor g (c.sfx g)) = none := by
        intro g hg
        have hne : tmpPathFor g (c.sfx g) ≠ f :=
          htmp g (List.mem_cons_of_mem f hg) f (List.mem_cons_self f rest)
        simp only [fsSet, if_neg hne]
        exact hfr g (List.mem_cons_of_mem f hg)
      have hag' : ∀ g ∈ rest, fsSet fs f (c.enc plain) g = fs₀ g := by
        intro g hg
        have hne : g ≠ f := fun hgf => hfnotin (hgf ▸ hg)
        simp only [fsSet, if_neg hne]
        exact hag g (List.mem_cons_of_mem f hg)
      obtain ⟨iok, ifail, iframe, ifailfs, isucc⟩ :=
        ih (fsSet fs f (c.enc plain)) (ok + 1) fail hndr htmpr hfr' hag'
      refine ⟨?_, ?_, ?_, ?_, ?_⟩
      · rw [iok]
        simp only [List.filter_cons, hrf, Bool.not_false, if_pos, List.length_cons]
        omega
      · rw [ifail]
        simp [List.filter_cons, hrf]
      · intro q hq hqt
        rw [iframe q (fun x hx => hq x (List.mem_cons_of_mem f hx))
          (fun x hx => hqt x (List.mem_cons_of_mem f hx))]
        have hqf : q ≠ f := hq f (List.mem_cons_self f rest)
        simp [fsSet, hqf]
      · intro g hg hgf
        rcases List.mem_cons.mp hg with rfl | hg'
        · rw [hrf] at hgf
          exact absurd hgf (by simp)
        · exact ifailfs g hg' hgf
      · intro g hg hgf
        rcases List.mem_cons.mp hg with rfl | hg'
        · refine ⟨content, plain, hc, hp, ?_⟩
          rw [iframe g hfne hftne]
          simp [fsSet]
        · exact isucc g hg' hgf

theorem length_filter_not_add {α : Type} (p : α → Bool) (l : List α) :
    (l.filter (fun x => !(p x))).length + (l.filter p).length = l.length := by
  induction l with
  | nil => rfl
  | cons a t ih =>
    by_cases h : p a <;> simp [List.filter_cons, h] <;> omega

/-- C6: over a duplicate-free batch whose temp names collide with no
batch file, the rotation pass counts every file exactly once as succeeded
or failed; the failed count is the number of files that fail to decrypt or
to re-encrypt; failed files keep their initial bytes; succeeded files are
committed re-encrypted under the new recipients; and the job reports an
overall error exactly when the failed count is nonzero, even though the
succeeded files are already committed. -/
theorem rotation_fault_isolation (c : RotCfg) (fs₀ : FS) (files : List FsPath)
    (hne : files ≠ [])
    (hnd : files.Nodup)
    (htmp : ∀ g ∈ files, ∀ x ∈ files, tmpPathFor g (c.sfx g) ≠ x)
    (hfr : ∀ g ∈ files, fs₀ (tmpPathFor g (c.sfx g)) = none) :
    (rotateLoop c fs₀ files).ok + (rotateLoop c fs₀ files).fail = files.length ∧
    (rotateLoop c fs₀ files).fail = (files.filter (rotFails c fs₀)).length ∧
    (∀ g ∈ files, rotFails c fs₀ g = true →
      (rotateLoop c fs₀ files).fs g = fs₀ g) ∧
    (∀ g ∈ files, rotFails c fs₀ g = false →
      ∃ content plain, fs₀ g = some content ∧ c.dec content = some plain ∧
        (rotateLoop c fs₀ files).fs g = some (c.enc plain)) ∧
    (rotateJobError c fs₀ files = true ↔ 0 < (rotateLoop c fs₀ files).fail) := by
  obtain ⟨iok, ifail, _, ifailfs, isucc⟩ :=
    rotateLoop_spec c fs₀ files fs₀ 0 0 hnd htmp hfr (fun g _ => rfl)
  have hcount := length_filter_not_add (rotFails c fs₀) files
  refine ⟨?_, ?_, ifailfs, isucc, ?_⟩
  · rw [rotateLoop, iok, ifail]
    omega
  · rw [rotateLoop, ifail]
    omega
  · rw [rotateJobError, if_neg hne]
    simp

/-! ### Editor state machine: the save/quit gates and the dirty flag -/

/-- With no confirmation pending, a save request on a dirty buffer never
reaches the write, whatever the external calls return: every branch of the
save path either aborts or stops at the confirmation gate. -/
theorem save_no_commit_of_not_pending (o : Oracle) (m : EditorModel)
    (hd : m.buf ≠ m.orig) (hp : m.pendingConfirm = false) :
    (step o m .ctrlS).2 = [] := by
  simp only [step]
  split_ifs with h1 h2 h3 h4 h5 h6 <;>
    first
      | rfl
      | exact (h5 ⟨hd, by simp [hp]⟩).elim

/-- C2 amended: in every reachable editor state, a clear `changed` flag
guarantees the buffer equals the original snapshot (`buf ≠ orig` implies
`changed`).  The converse direction of the claim fails: `changed` is set by
any edit and cleared only by a successful save, never recomputed from the
buffer — see the counterexample. -/
theorem changed_clear_implies_buffer_pristine (m : EditorModel) (h : Reachable m) :
    m.changed = false → m.buf = m.orig := by
  induction h with
  | init fp vo ar pt => exact fun _ => rfl
  | next m o e hm ih =>
    cases e with
    | tick => exact ih
    | ctrlQ =>
      simp only [step]
      split <;> exact ih
    | ctrlD =>
      simp only [step]
      split <;> exact ih
    | ctrlS =>
      simp only [step]
      split
      · exact ih
      · split
        · exact ih
        · split
          · exact ih
          · split
            · exact ih
            · split
              · exact ih
              · split
                · exact fun _ => rfl
                · exact ih
    | edit v =>
      simp only [step]
      split
      · exact fun hc => absurd hc (by simp)
      · rename_i hc
        intro hch
        have hbv : m.buf = v := not_ne_iff.mp hc
        calc v = m.buf := hbv.symm
          _ = m.orig := ih hch

/-- C2 amended, witness: the invariant applied to a freshly opened file. -/
theorem changed_clear_implies_buffer_pristine_witness :
    (initModel "f" false true "a").buf = (initModel "f" false true "a").orig :=
  changed_clear_implies_buffer_pristine _ (Reachable.init "f" false true "a") rfl

/-- C2 counterexample: edit `"a"` to `"b"` and back to `"a"`.  The state is
reachable and its buffer equals the original plaintext, yet `changed` is
still true — dirty is not `buffer ≠ originalPlaintext`. -/
theorem dirty_flag_not_recomputed :
    Reachable (step allOk
      (step allOk (initModel "f" false true "a") (.edit "b")).1 (.edit "a")).1 ∧
    (step allOk
      (step allOk (initModel "f" false true "a") (.edit "b")).1 (.edit "a")).1.buf =
      (step allOk
        (step allOk (initModel "f" false true "a") (.edit "b")).1 (.edit "a")).1.orig ∧
    (step allOk
      (step allOk (initModel "f" false true "a") (.edit "b")).1 (.edit "a")).1.changed =
      true :=
  ⟨Reachable.next _ allOk (.edit "a")
      (Reachable.next _ allOk (.edit "b") (Reachable.init "f" false true "a")),
    by decide, by decide⟩

/-- C3: when the preflight fails — the in-memory encryption or the
decrypt-back with current identities — the save request issues no disk
effect at all (no `AtomicEncryptWrite` call, hence no byte of the target
file changed and no temp file created), and the buffer and original
snapshot are untouched. -/
theorem preflight_failure_zero_writes (o : Oracle) (m : EditorModel)
    (hv : m.viewOnly = false)
    (hval : o.validateOk m.buf = true)
    (hpf : o.encryptOk m.buf = false ∨ o.decryptOk m.buf = false) :
    (step o m .ctrlS).2 = [] ∧
    (step o m .ctrlS).1.buf = m.buf ∧
    (step o m .ctrlS).1.orig = m.orig ∧
    (step o m .ctrlS).1.changed = m.changed := by
  rcases hpf with h | h
  · simp [step, hv, hval, h]
  · by_cases he : o.encryptOk m.buf <;> simp [step, hv, hval, h, he]

/-- C3 witness: preflight-encrypt failure on the dirty fixture state. -/
theorem preflight_failure_zero_writes_witness :
    (step failPreflight wEd .ctrlS).2 = [] ∧
    (step failPreflight wEd .ctrlS).1.buf = wEd.buf ∧
    (step failPreflight wEd .ctrlS).1.orig = wEd.orig ∧
    (step failPreflight wEd .ctrlS).1.changed = wEd.changed :=
  preflight_failure_zero_writes failPreflight wEd rfl rfl (Or.inl rfl)

/-- C1 counterexample: edit `"a"` to `"b"`, then press Ctrl+Q once — the
quit warning sets the same `pendingConfirm` flag the save gate reads.  From
this reachable dirty state, a single save request (all external calls
succeeding) commits at once: it emits the `AtomicEncryptWrite` and replaces
the snapshot.  So the gate does not hold regardless of which events
preceded the first save request. -/
theorem single_save_commits_after_quit_request :
    Reachable (step allOk
      (step allOk (initModel "f" false true "a") (.edit "b")).1 .ctrlQ).1 ∧
    (step allOk
      (step allOk (initModel "f" false true "a") (.edit "b")).1 .ctrlQ).1.buf ≠
      (step allOk
        (step allOk (initModel "f" false true "a") (.edit "b")).1 .ctrlQ).1.orig ∧
    (step allOk (step allOk
      (step allOk (initModel "f" false true "a") (.edit "b")).1 .ctrlQ).1
      .ctrlS).2 = [.atomicWrite "f" "b"] ∧
    (step allOk (step allOk
      (step allOk (initModel "f" false true "a") (.edit "b")).1 .ctrlQ).1
      .ctrlS).1.orig = "b" :=
  ⟨Reachable.next _ allOk .ctrlQ
      (Reachable.next _ allOk (.edit "b") (Reachable.init "f" false true "a")),
    by decide, by decide, by decide⟩

/-- C1 amended: the double-confirm gate holds for every dirty state with
`pendingConfirm` clear — a first save request never commits under any
external outcomes, a second save request with no intervening edit commits,
and any edit between the two resets the gate.  The claim's "regardless of
which other events occurred before" must be weakened: a quit request on a
dirty buffer sets the same `pendingConfirm` flag, after which a single save
request commits at once (see the counterexample). -/
theorem double_confirm_gate (o : Oracle) (m : EditorModel)
    (hd : m.buf ≠ m.orig) (hp : m.pendingConfirm = false)
    (hv : m.viewOnly = false)
    (h1 : o.validateOk m.buf = true) (h2 : o.encryptOk m.buf = true)
    (h3 : o.decryptOk m.buf = true) (h4 : o.writeOk m.buf = true) :
    (∀ o' : Oracle, (step o' m .ctrlS).2 = []) ∧
    (step o m .ctrlS).1.pendingConfirm = true ∧
    (step o m .ctrlS).1.buf = m.buf ∧
    (step o m .ctrlS).1.orig = m.orig ∧
    (step o (step o m .ctrlS).1 .ctrlS).2 = [.atomicWrite m.filePath m.buf] ∧
    (step o (step o m .ctrlS).1 .ctrlS).1.orig = m.buf ∧
    (∀ v : String, v ≠ m.buf → v ≠ m.orig →
      (step o (step o m .ctrlS).1 (.edit v)).1.pendingConfirm = false ∧
      ∀ o' : Oracle,
        (step o' (step o (step o m .ctrlS).1 (.edit v)).1 .ctrlS).2 = []) := by
  have hm1 : (step o m .ctrlS).1 =
      { m with status := "About to save. Press Ctrl+S again to confirm.",
               pendingConfirm := true } := by
    simp [step, hv, h1, h2, h3, hd, hp]
  have hm2 : step o (step o m .ctrlS).1 .ctrlS =
      ({ m with status := "Saved", err := none, orig := m.buf, changed := false,
                pendingConfirm := false },
        [Effect.atomicWrite m.filePath m.buf]) := by
    rw [hm1]
    simp [step, hv, h1, h2, h3, h4]
  refine ⟨fun o' => save_no_commit_of_not_pending o' m hd hp,
    by rw [hm1], by rw [hm1], by rw [hm1], by rw [hm2], by rw [hm2], ?_⟩
  intro v hv1 hv2
  have hm3 : (step o (step o m .ctrlS).1 (.edit v)).1 =
      { m with status := "About to save. Press Ctrl+S again to confirm.",
               buf := v, changed := true, pendingConfirm := false } := by
    rw [hm1]
    simp [step, Ne.symm hv1]
  constructor
  · rw [hm3]
  · intro o'
    refine save_no_commit_of_not_pending o' _ ?_ ?_
    · rw [hm3]
      exact hv2
    · rw [hm3]

/-- C1 amended, witness: the gate behavior on the dirty fixture state under
the all-succeeding oracle. -/
theorem double_confirm_gate_witness :
    (∀ o' : Oracle, (step o' wEd .ctrlS).2 = []) ∧
    (step allOk wEd .ctrlS).1.pendingConfirm = true ∧
    (step allOk wEd .ctrlS).1.buf = wEd.buf ∧
    (step allOk wEd .ctrlS).1.orig = wEd.orig ∧
    (step allOk (step allOk wEd .ctrlS).1 .ctrlS).2 =
      [.atomicWrite wEd.filePath wEd.buf] ∧
    (step allOk (step allOk wEd .ctrlS).1 .ctrlS).1.orig = wEd.buf ∧
    (∀ v : String, v ≠ wEd.buf → v ≠ wEd.orig →
      (step allOk (step allOk wEd .ctrlS).1 (.edit v)).1.pendingConfirm = false ∧
      ∀ o' : Oracle,
        (step o' (step allOk (step allOk wEd .ctrlS).1 (.edit v)).1 .ctrlS).2 = []) :=
  double_confirm_gate allOk wEd (by decide) rfl rfl rfl rfl rfl rfl

/-- C4 witness: the cleanup guarantees evaluated on the one-file fixture
tree with a fault-free schedule. -/
theorem atomic_write_cleanup_witness :
    (AtomicEncryptWrite (fun _ => false) (fun p => 'X' :: p) wTree wDst ("7".data)
      ("new".data)).1 (tmpPathFor wDst ("7".data)) = none ∧
    (∀ p, p ≠ wDst → p ≠ tmpPathFor wDst ("7".data) →
      (AtomicEncryptWrite (fun _ => false) (fun p => 'X' :: p) wTree wDst ("7".data)
        ("new".data)).1 p = wTree p) ∧
    ((AtomicEncryptWrite (fun _ => false) (fun p => 'X' :: p) wTree wDst ("7".data)
        ("new".data)).2 ≠ none →
      (AtomicEncryptWrite (fun _ => false) (fun p => 'X' :: p) wTree wDst ("7".data)
        ("new".data)).1 wDst = wTree wDst) ∧
    ((AtomicEncryptWrite (fun _ => false) (fun p => 'X' :: p) wTree wDst ("7".data)
        ("new".data)).2 = none →
      (AtomicEncryptWrite (fun _ => false) (fun p => 'X' :: p) wTree wDst ("7".data)
        ("new".data)).1 wDst = some ('X' :: "new".data)) ∧
    dirOf (tmpPathFor wDst ("7".data)) = dirOf wDst ∧
    isTmpName (tmpPathFor wDst ("7".data)) = true ∧
    (∀ p, isTmpName p = true → wTree p = none →
      (AtomicEncryptWrite (fun _ => false) (fun p => 'X' :: p) wTree wDst ("7".data)
        ("new".data)).1 p = none) :=
  atomic_write_cleanup (fun _ => false) (fun p => 'X' :: p) wTree wDst ("7".data)
    ("new".data) (by decide) (by decide)

/-- C6 witness: the rotation guarantees evaluated on the three-file
fixture, where `a.age` fails to decrypt and the other two succeed. -/
theorem rotation_fault_isolation_witness :
    (rotateLoop wRot wRotTree wFiles).ok + (rotateLoop wRot wRotTree wFiles).fail =
      wFiles.length ∧
    (rotateLoop wRot wRotTree wFiles).fail =
      (wFiles.filter (rotFails wRot wRotTree)).length ∧
    (∀ g ∈ wFiles, rotFails wRot wRotTree g = true →
      (rotateLoop wRot wRotTree wFiles).fs g = wRotTree g) ∧
    (∀ g ∈ wFiles, rotFails wRot wRotTree g = false →
      ∃ content plain, wRotTree g = some content ∧ wRot.dec content = some plain ∧
        (rotateLoop wRot wRotTree wFiles).fs g = some (wRot.enc plain)) ∧
    (rotateJobError wRot wRotTree wFiles = true ↔
      0 < (rotateLoop wRot wRotTree wFiles).fail) :=
  rotation_fault_isolation wRot wRotTree wFiles (by decide) (by decide) (by decide)
    (by decide)

end Agepad
